import Mathlib

/-!
Verification of the ASCIIToSVG diagram parser (asciitosvg, Go).

This file is a shallow embedding of the parser sources — canvas.go
(NewCanvas, expandTabs, findObjects, scanPath, next, scanText, the
sorting predicate), char.go (the character classifier), and object.go
(seal, pointsToCorners, HasPoint) — together with theorems settling the
frozen claims about the specification.

Modelling conventions:
- Go byte slices are `List UInt8`; runes are `Char` (and raw codepoints
  `Nat` inside the UTF-8 codec); Go `int` is `Int`.
- Functions that can `panic` or return an `error` in Go return `Res α`:
  `.ok` for normal returns, `.perr` for returned `error` values, and
  `.crash` for panics (divide by zero, `panic(err)` on a JSON failure,
  the internal-inconsistency panics).  Recursions whose termination Go
  does not make structural take a fuel argument; fuel exhaustion is the
  distinguished `.crash .outOfFuel` and is unreachable for the inputs
  evaluated here (fuel is sized from the grid).
- The Go standard library pieces the parser leans on (unicode/utf8,
  the `unicode` character classes on the ASCII range, encoding/json,
  regexp for the single pattern `(\d+)\s*,\s*(\d+)$`, strconv.ParseInt
  on digit strings, bytes.Split) are modelled directly; all grid content
  evaluated by the theorems below is ASCII, so the `unicode` classes are
  given by their ASCII tables.
-/

/-- Rendering hints attached to points (canvas.go `RenderHint`). -/
inductive RenderHint where
  | none
  | roundedCorner
  | startMarker
  | endMarker
  | tick
  | dot
deriving DecidableEq, Repr, Inhabited

/-- A grid coordinate plus render hint (canvas.go `Point`).  Coordinates are Go ints. -/
structure Point where
  x : Int
  y : Int
  hint : RenderHint := RenderHint.none
deriving DecidableEq, Repr, Inhabited

/-- Parse errors returned (as Go `error` values) from the canvas constructor. -/
inductive ParseErr where
  /-- "invalid UTF-8 encoding on line %d" (NewCanvas). -/
  | invalidUTF8 (line : Nat)
  /-- "invalid rune at byte offset %d; rune offset %d" (expandTabs). -/
  | invalidRune (byteOffset runeOffset : Nat)
deriving DecidableEq, Repr

/-- Abnormal terminations: Go runtime panics and explicit `panic(...)` calls. -/
inductive Crash where
  /-- `tabWidth - (pos % tabWidth)` with `tabWidth == 0` (expandTabs). -/
  | divByZero
  /-- `panic(err)` when `json.Unmarshal` fails in scanText. -/
  | jsonError
  /-- the `m.(map[string]interface{})` assertion in scanText fails. -/
  | typeAssert
  /-- "discontiguous points" (pointsToCorners). -/
  | discontiguousPoints
  /-- "internal error; revisiting" (next). -/
  | revisitPoint
  /-- "internal error: point never visited" (unvisit). -/
  | neverVisitedPoint
  /-- indexing `Corners()[0]` of an object without corners. -/
  | emptyCorners
  /-- fuel exhaustion of the embedding; unreachable for sufficient fuel. -/
  | outOfFuel
deriving DecidableEq, Repr

/-- Outcome of running a piece of the parser: a value, a returned error, or a panic. -/
inductive Res (α : Type) where
  | ok (a : α)
  | perr (e : ParseErr)
  | crash (c : Crash)
deriving DecidableEq, Repr

def Res.bind {α β : Type} : Res α → (α → Res β) → Res β
  | .ok a, f => f a
  | .perr e, _ => .perr e
  | .crash c, _ => .crash c

def Res.map {α β : Type} (f : α → β) : Res α → Res β
  | .ok a => .ok (f a)
  | .perr e => .perr e
  | .crash c => .crash c

instance : Monad Res where
  pure := Res.ok
  bind := Res.bind
  map := Res.map

/-! ## Character classifier (char.go)

The grid character type in Go is `char` (a rune); we classify `Char`s.
The `unicode` package classes are modelled on the ASCII range (all grid
content evaluated in this file is ASCII); codepoints ≥ 0x80 are not
classified. -/

/-- unicode.IsLetter on the ASCII range. -/
def unicodeIsLetter (c : Char) : Bool :=
  (65 ≤ c.toNat && c.toNat ≤ 90) || (97 ≤ c.toNat && c.toNat ≤ 122)

/-- unicode.IsNumber on the ASCII range. -/
def unicodeIsNumber (c : Char) : Bool :=
  48 ≤ c.toNat && c.toNat ≤ 57

/-- unicode.IsSymbol on the ASCII range: `$ + < = > ^ ` | ~`. -/
def unicodeIsSymbol (c : Char) : Bool :=
  c == '$' || c == '+' || c == '<' || c == '=' || c == '>' ||
  c == '^' || c == Char.ofNat 96 || c == '|' || c == '~'

/-- unicode.IsPrint on the ASCII range: 0x20–0x7E. -/
def unicodeIsPrint (c : Char) : Bool :=
  32 ≤ c.toNat && c.toNat ≤ 126

/-- unicode.IsSpace on the ASCII range: `\t \n \v \f \r` and space. -/
def unicodeIsSpace (c : Char) : Bool :=
  c.toNat == 9 || c.toNat == 10 || c.toNat == 11 || c.toNat == 12 ||
  c.toNat == 13 || c.toNat == 32

def isObjectStartTag (c : Char) : Bool := c == '['

def isObjectEndTag (c : Char) : Bool := c == ']'

def isTagDefinitionSeparator (c : Char) : Bool := c == ':'

def isTextStart (c : Char) : Bool :=
  isObjectStartTag c || unicodeIsLetter c || unicodeIsNumber c || unicodeIsSymbol c

def isTextCont (c : Char) : Bool := unicodeIsPrint c

def isSpace (c : Char) : Bool := unicodeIsSpace c

def isCorner (c : Char) : Bool := c == '.' || c == Char.ofNat 39 || c == '+'

def isRoundedCorner (c : Char) : Bool := c == '.' || c == Char.ofNat 39

def isDashedHorizontal (c : Char) : Bool := c == '='

def isTick (c : Char) : Bool := c == 'x'

def isDot (c : Char) : Bool := c == 'o'

def isHorizontal (c : Char) : Bool :=
  isDashedHorizontal c || isTick c || isDot c || c == '-'

def isDashedVertical (c : Char) : Bool := c == ':'

def isVertical (c : Char) : Bool :=
  isDashedVertical c || isTick c || isDot c || c == '|'

def isDashed (c : Char) : Bool := isDashedHorizontal c || isDashedVertical c

def isArrowHorizontalLeft (c : Char) : Bool := c == '<'

def isArrowHorizontal (c : Char) : Bool := isArrowHorizontalLeft c || c == '>'

def isArrowVerticalUp (c : Char) : Bool := c == '^'

def isArrowVertical (c : Char) : Bool := isArrowVerticalUp c || c == 'v'

def isArrow (c : Char) : Bool := isArrowHorizontal c || isArrowVertical c

def isDiagonalNorthEast (c : Char) : Bool := c == '/'

def isDiagonalSouthEast (c : Char) : Bool := c == Char.ofNat 92

def isDiagonal (c : Char) : Bool := isDiagonalNorthEast c || isDiagonalSouthEast c

/-- isPathStart (char.go): any character that can start a path, excluding ticks and dots. -/
def isPathStart (c : Char) : Bool :=
  (isCorner c || isHorizontal c || isVertical c || isArrowHorizontalLeft c ||
   isArrowVerticalUp c || isDiagonal c) && !isTick c && !isDot c

/-- canDiagonalFrom (char.go): legality of a diagonal step from `from` onto `c`. -/
def canDiagonalFrom (c from_ : Char) : Bool :=
  if isArrowVertical from_ || isCorner from_ then isDiagonal c
  else if isDiagonal from_ then
    isDiagonal c || isCorner c || isArrowVertical c || isHorizontal c || isVertical c
  else if isHorizontal from_ || isVertical from_ then isDiagonal c
  else false

def canHorizontal (c : Char) : Bool :=
  isHorizontal c || isCorner c || isArrowHorizontal c

def canVertical (c : Char) : Bool :=
  isVertical c || isCorner c || isArrowVertical c

/-! ## unicode/utf8 (Go standard library model) -/

/-- utf8.RuneError = U+FFFD. -/
def runeError : Nat := 0xFFFD

/-- utf8.DecodeRune: decode the first rune of a byte slice, returning the
codepoint and the number of bytes consumed.  `([], _)` decodes to
(RuneError, 0); an invalid prefix decodes to (RuneError, 1). -/
def utf8DecodeRune : List UInt8 → Nat × Nat
  | [] => (runeError, 0)
  | b0 :: rest =>
    let n0 := b0.toNat
    if n0 < 0x80 then (n0, 1)
    else if n0 < 0xC2 then (runeError, 1)
    else if n0 < 0xE0 then
      match rest with
      | b1 :: _ =>
        if 0x80 ≤ b1.toNat && b1.toNat ≤ 0xBF then
          ((n0 % 0x20) * 0x40 + b1.toNat % 0x40, 2)
        else (runeError, 1)
      | _ => (runeError, 1)
    else if n0 < 0xF0 then
      match rest with
      | b1 :: b2 :: _ =>
        let lo1 : Nat := if n0 == 0xE0 then 0xA0 else 0x80
        let hi1 : Nat := if n0 == 0xED then 0x9F else 0xBF
        if lo1 ≤ b1.toNat && b1.toNat ≤ hi1 &&
           0x80 ≤ b2.toNat && b2.toNat ≤ 0xBF then
          ((n0 % 0x10) * 0x1000 + (b1.toNat % 0x40) * 0x40 + b2.toNat % 0x40, 3)
        else (runeError, 1)
      | _ => (runeError, 1)
    else if n0 < 0xF5 then
      match rest with
      | b1 :: b2 :: b3 :: _ =>
        let lo1 : Nat := if n0 == 0xF0 then 0x90 else 0x80
        let hi1 : Nat := if n0 == 0xF4 then 0x8F else 0xBF
        if lo1 ≤ b1.toNat && b1.toNat ≤ hi1 &&
           0x80 ≤ b2.toNat && b2.toNat ≤ 0xBF &&
           0x80 ≤ b3.toNat && b3.toNat ≤ 0xBF then
          ((n0 % 0x8) * 0x40000 + (b1.toNat % 0x40) * 0x1000 +
             (b2.toNat % 0x40) * 0x40 + b3.toNat % 0x40, 4)
        else (runeError, 1)
      | _ => (runeError, 1)
    else (runeError, 1)

/-- utf8.EncodeRune: the canonical UTF-8 encoding of a codepoint (invalid
codepoints encode RuneError, as in Go). -/
def utf8EncodeRune (r : Nat) : List UInt8 :=
  if r < 0x80 then [UInt8.ofNat r]
  else if r < 0x800 then
    [UInt8.ofNat (0xC0 + r / 0x40), UInt8.ofNat (0x80 + r % 0x40)]
  else if 0xD800 ≤ r && r ≤ 0xDFFF then
    -- surrogate halves are invalid; Go encodes RuneError
    [0xEF, 0xBF, 0xBD]
  else if r < 0x10000 then
    [UInt8.ofNat (0xE0 + r / 0x1000), UInt8.ofNat (0x80 + r / 0x40 % 0x40),
     UInt8.ofNat (0x80 + r % 0x40)]
  else if r < 0x110000 then
    [UInt8.ofNat (0xF0 + r / 0x40000), UInt8.ofNat (0x80 + r / 0x1000 % 0x40),
     UInt8.ofNat (0x80 + r / 0x40 % 0x40), UInt8.ofNat (0x80 + r % 0x40)]
  else [0xEF, 0xBF, 0xBD]

/-- One step of utf8.Valid: `none` when the head sequence is invalid, else
the remaining bytes (strictly shorter). -/
def utf8ValidStep : List UInt8 → Option (List UInt8)
  | [] => none
  | b0 :: rest =>
    let n0 := b0.toNat
    if n0 < 0x80 then some rest
    else if n0 < 0xC2 then none
    else if n0 < 0xE0 then
      match rest with
      | b1 :: rest' =>
        if 0x80 ≤ b1.toNat && b1.toNat ≤ 0xBF then some rest' else none
      | _ => none
    else if n0 < 0xF0 then
      match rest with
      | b1 :: b2 :: rest' =>
        let lo1 : Nat := if n0 == 0xE0 then 0xA0 else 0x80
        let hi1 : Nat := if n0 == 0xED then 0x9F else 0xBF
        if lo1 ≤ b1.toNat && b1.toNat ≤ hi1 &&
           0x80 ≤ b2.toNat && b2.toNat ≤ 0xBF then some rest' else none
      | _ => none
    else if n0 < 0xF5 then
      match rest with
      | b1 :: b2 :: b3 :: rest' =>
        let lo1 : Nat := if n0 == 0xF0 then 0x90 else 0x80
        let hi1 : Nat := if n0 == 0xF4 then 0x8F else 0xBF
        if lo1 ≤ b1.toNat && b1.toNat ≤ hi1 &&
           0x80 ≤ b2.toNat && b2.toNat ≤ 0xBF &&
           0x80 ≤ b3.toNat && b3.toNat ≤ 0xBF then some rest' else none
      | _ => none
    else none

/-- utf8.Valid, with fuel bounded by the byte count. -/
def utf8ValidFuel : Nat → List UInt8 → Bool
  | _, [] => true
  | 0, _ => false
  | fuel + 1, bs =>
    match utf8ValidStep bs with
    | some rest => utf8ValidFuel fuel rest
    | none => false

def utf8Valid (bs : List UInt8) : Bool := utf8ValidFuel bs.length bs

/-- Decode a whole byte slice to runes (used to fill the grid and by
utf8.RuneCount); invalid sequences advance per DecodeRune, as in Go. -/
def decodeRunes : Nat → List UInt8 → List Char
  | _, [] => []
  | 0, _ => []
  | fuel + 1, bs =>
    let (r, l) := utf8DecodeRune bs
    Char.ofNat r :: decodeRunes fuel (bs.drop (max l 1))

/-- utf8.RuneCount. -/
def utf8RuneCount (bs : List UInt8) : Nat := (decodeRunes bs.length bs).length

/-! ## expandTabs (canvas.go)

Faithful to the source: the loop ranges over the *bytes* of the line while
`pos` advances by decoded-rune lengths.  `pos % tabWidth` with
`tabWidth == 0` is a Go integer-divide-by-zero panic; Go `%` truncates,
which is `Int.tmod`. -/

def expandTabsLoop (orig : List UInt8) (tabWidth : Int) :
    List UInt8 → Nat → Nat → List UInt8 → Res (List UInt8)
  | [], _, _, out => .ok out
  | c :: cs, pos, index, out =>
    if c == 9 then
      if tabWidth == 0 then .crash .divByZero
      else
        let s : Int := tabWidth - Int.tmod (Int.ofNat pos) tabWidth
        expandTabsLoop orig tabWidth cs (pos + 1) (index + s.toNat)
          (out ++ List.replicate s.toNat 32)
    else
      let rl := utf8DecodeRune (orig.drop pos)
      if rl.1 == runeError then .perr (.invalidRune pos index)
      else expandTabsLoop orig tabWidth cs (pos + rl.2) (index + 1)
        (out ++ utf8EncodeRune rl.1)

def expandTabs (line : List UInt8) (tabWidth : Int) : Res (List UInt8) :=
  expandTabsLoop line tabWidth line 0 0 []

/-- bytes.Split(data, "\n"): splitting the empty slice yields one empty line. -/
def splitNl : List UInt8 → List (List UInt8)
  | [] => [[]]
  | b :: rest =>
    if b == 10 then [] :: splitNl rest
    else
      match splitNl rest with
      | [] => [[b]]
      | l :: ls => (b :: l) :: ls

/-! ## Canvas state and objects -/

/-- JSON values (model of what encoding/json.Unmarshal produces). -/
inductive Jv where
  | jnull
  | jbool (b : Bool)
  | jnum (lit : List Char)
  | jstr (s : List Char)
  | jarr (xs : List Jv)
  | jobj (kvs : List (List Char × Jv))
deriving Inhabited, Repr

/-- The object record (object.go `object`), shared by paths, polygons and text. -/
structure Obj where
  points : List Point
  isText : Bool
  text : List Char := []
  corners : List Point := []
  isClosed : Bool := false
  isDashed : Bool := false
  tag : String := ""
deriving DecidableEq, Inhabited, Repr

/-- The mutable canvas state threaded through the scanners (canvas.go `canvas`):
grid and visited bitmap are row-major of size `w * h`; `options` is the map
from tag to unmarshalled JSON object. -/
structure Cv where
  w : Nat
  h : Nat
  grid : List Char
  visited : List Bool
  options : List (String × List (List Char × Jv)) := []
deriving Inhabited, Repr

def gridIdx (c : Cv) (p : Point) : Nat := (p.y * Int.ofNat c.w + p.x).toNat

/-- canvas.at. -/
def cvAt (c : Cv) (p : Point) : Char := c.grid.getD (gridIdx c p) ' '

/-- canvas.isVisited. -/
def isVisited (c : Cv) (p : Point) : Bool := c.visited.getD (gridIdx c p) false

/-- canvas.visit. -/
def visit (c : Cv) (p : Point) : Cv :=
  { c with visited := c.visited.set (gridIdx c p) true }

/-- canvas.unvisit: panics when the point was never visited. -/
def unvisit (c : Cv) (p : Point) : Res Cv :=
  if isVisited c p then .ok { c with visited := c.visited.set (gridIdx c p) false }
  else .crash .neverVisitedPoint

def canLeft (_ : Cv) (p : Point) : Bool := p.x > 0

def canRight (c : Cv) (p : Point) : Bool := p.x < Int.ofNat c.w - 1

def canUp (_ : Cv) (p : Point) : Bool := p.y > 0

def canDown (c : Cv) (p : Point) : Bool := p.y < Int.ofNat c.h - 1

def canDiagonal (c : Cv) (p : Point) : Bool :=
  (canLeft c p || canRight c p) && (canUp c p || canDown c p)

/-! ## pointsToCorners (object.go; duplicated verbatim in canvas.go)

Directions use the Go iota values.  `dirOfPair` is the six-way if-chain the
source repeats three times; the chain falling through to `panic` is `none`. -/

def dirNone : Nat := 0
def dirH : Nat := 1
def dirV : Nat := 2
def dirSE : Nat := 3
def dirSW : Nat := 4
def dirNW : Nat := 5
def dirNE : Nat := 6

/-- isHorizontal on point pairs (object.go): `|p1.X − p2.X| ≤ 1 ∧ p1.Y = p2.Y`. -/
def isHorizontalPair (p1 p2 : Point) : Bool :=
  decide (p1.x - p2.x ≤ 1 ∧ -1 ≤ p1.x - p2.x ∧ p1.y = p2.y)

/-- isVertical on point pairs (object.go). -/
def isVerticalPair (p1 p2 : Point) : Bool :=
  decide (p1.y - p2.y ≤ 1 ∧ -1 ≤ p1.y - p2.y ∧ p1.x = p2.x)

def isDiagonalSE (p1 p2 : Point) : Bool :=
  decide (p1.x - p2.x = -1 ∧ p1.y - p2.y = -1)

def isDiagonalSW (p1 p2 : Point) : Bool :=
  decide (p1.x - p2.x = 1 ∧ p1.y - p2.y = -1)

def isDiagonalNW (p1 p2 : Point) : Bool :=
  decide (p1.x - p2.x = 1 ∧ p1.y - p2.y = 1)

def isDiagonalNE (p1 p2 : Point) : Bool :=
  decide (p1.x - p2.x = -1 ∧ p1.y - p2.y = 1)

/-- The direction classification chain of pointsToCorners, in source order;
`none` is the "discontiguous points" panic case. -/
def dirOfPair (p q : Point) : Option Nat :=
  if isHorizontalPair p q then some dirH
  else if isVerticalPair p q then some dirV
  else if isDiagonalSE p q then some dirSE
  else if isDiagonalSW p q then some dirSW
  else if isDiagonalNW p q then some dirNW
  else if isDiagonalNE p q then some dirNE
  else none

/-- The `for i := 2; i < l; i++` loop of pointsToCorners: walks the remaining
points, appending `points[i-1]` whenever the direction changes.  Returns the
corner list, the final direction, and the last point walked. -/
def ptcLoop : Point → List Point → Nat → List Point → Option (List Point × Nat × Point)
  | prev, [], dir, out => some (out, dir, prev)
  | prev, q :: rest, dir, out =>
    match dirOfPair prev q with
    | none => none
    | some nd => ptcLoop q rest nd (if dir ≠ nd then out ++ [prev] else out)

/-- The closing test of pointsToCorners: `closedFunc` applied down the
isHorizontal / isVertical / isDiagonalNE(last, first) chain. -/
def closePred (p0 last : Point) (dir : Nat) : Bool :=
  if isHorizontalPair p0 last then dir == dirH
  else if isVerticalPair p0 last then dir == dirV
  else if isDiagonalNE last p0 then dir == dirNE
  else false

/-- pointsToCorners (object.go): the corner list of a path and whether the
path is closed.  `none` is the "discontiguous points" panic. -/
def pointsToCorners (points : List Point) : Option (List Point × Bool) :=
  match points with
  | p0 :: p1 :: p2 :: rest =>
    match dirOfPair p0 p1 with
    | none => none
    | some d0 =>
      match ptcLoop p1 (p2 :: rest) d0 [p0] with
      | none => none
      | some (out, dirF, last) =>
        if closePred p0 last dirF then some (out, true)
        else some (out ++ [last], false)
  | _ => some (points, false)

/-! ## seal (object.go) -/

/-- Modify the element at an index, leaving the list unchanged out of range
(models the in-place writes `o.points[i].Hint = …` and
`c.objects[i].SetTag(…)`). -/
def modifyAt {α : Type} (f : α → α) : Nat → List α → List α
  | _, [] => []
  | 0, x :: r => f x :: r
  | n + 1, x :: r => x :: modifyAt f n r

/-- Set the hint of the point at an index (the `o.points[i].Hint = …` writes). -/
def setHintAt (pts : List Point) (i : Nat) (h : RenderHint) : List Point :=
  modifyAt (fun p => { p with hint := h }) i pts

/-- First marker write of seal: StartMarker when the first character is an arrow. -/
def sealStartMarker (c : Cv) (pts : List Point) : List Point :=
  if isArrow (cvAt c (pts.headD default)) then setHintAt pts 0 .startMarker else pts

/-- Second marker write of seal: EndMarker when the last character is an arrow
(the grid lookup reads only coordinates, so running it after the first write is
the source's behaviour). -/
def sealEndMarker (c : Cv) (pts : List Point) : List Point :=
  if isArrow (cvAt c (pts.getLastD default)) then
    setHintAt pts (pts.length - 1) .endMarker
  else pts

/-- The marker step of seal. -/
def sealMarkers (c : Cv) (pts : List Point) : List Point :=
  sealEndMarker c (sealStartMarker c pts)

/-- Membership of a coordinate in a corner list, by X/Y comparison as in the
source (`corner.X == p.X && corner.Y == p.Y`). -/
def cornerMem (corners : List Point) (p : Point) : Bool :=
  corners.any (fun cr => cr.x == p.x && cr.y == p.y)

/-- The per-point hint update of object.go's seal for non-text objects: the
source writes Tick/Dot first and then overwrites with RoundedCorner when the
point is in the corner list and the character is a rounded corner; since the
writes touch only the hint, the net result is this if-chain. -/
def sealPointUpd (c : Cv) (corners : List Point) (p : Point) : Point :=
  if cornerMem corners p && isRoundedCorner (cvAt c p) then { p with hint := .roundedCorner }
  else if isTick (cvAt c p) then { p with hint := .tick }
  else if isDot (cvAt c p) then { p with hint := .dot }
  else p

/-- seal (object.go): finalize an object — markers, corners/closedness via
pointsToCorners, per-point hints, dashedness, and the textual view. -/
def sealObj (c : Cv) (o : Obj) : Res Obj :=
  match pointsToCorners (sealMarkers c o.points) with
  | none => .crash .discontiguousPoints
  | some (cors, closed) =>
    .ok { o with
          points := if o.isText then sealMarkers c o.points
                    else (sealMarkers c o.points).map (sealPointUpd c cors)
          corners := cors
          isClosed := closed
          isDashed := if o.isText then o.isDashed
                      else o.isDashed ||
                        (sealMarkers c o.points).any (fun p => isDashed (cvAt c p))
          text := (sealMarkers c o.points).map (cvAt c) }

/-- The seal variant still present in canvas.go (an older revision of the same
function, carrying `TODO(dhobsd): Only do this for corners.`): it gives the
RoundedCorner hint to *every* point whose character is a rounded-corner
character, corner or not. -/
def sealPointUpdCanvasTodo (c : Cv) (p : Point) : Point :=
  if isRoundedCorner (cvAt c p) then { p with hint := .roundedCorner }
  else if isTick (cvAt c p) then { p with hint := .tick }
  else if isDot (cvAt c p) then { p with hint := .dot }
  else p

def sealCanvasTodo (c : Cv) (o : Obj) : Res Obj :=
  match pointsToCorners (sealMarkers c o.points) with
  | none => .crash .discontiguousPoints
  | some (cors, closed) =>
    .ok { o with
          points := if o.isText then sealMarkers c o.points
                    else (sealMarkers c o.points).map (sealPointUpdCanvasTodo c)
          corners := cors
          isClosed := closed
          isDashed := if o.isText then o.isDashed
                      else o.isDashed ||
                        (sealMarkers c o.points).any (fun p => isDashed (cvAt c p))
          text := (sealMarkers c o.points).map (cvAt c) }

/-! ## next (canvas.go): reachable neighbours, in source order -/

/-- next (canvas.go): horizontal (left, right), vertical (up, down), then
diagonal (up-left, up-right, down-left, down-right) neighbours, skipping
visited points; panics when the current point is not visited. -/
def nextPts (c : Cv) (pos : Point) : Res (List Point) :=
  if !(isVisited c pos) then .crash .revisitPoint
  else
    let ch := cvAt c pos
    let hOut : List Point :=
      if canHorizontal ch then
        (if canLeft c pos then
           let n := { pos with x := pos.x - 1 }
           if !(isVisited c n) && canHorizontal (cvAt c n) then [n] else []
         else []) ++
        (if canRight c pos then
           let n := { pos with x := pos.x + 1 }
           if !(isVisited c n) && canHorizontal (cvAt c n) then [n] else []
         else [])
      else []
    let vOut : List Point :=
      if canVertical ch then
        (if canUp c pos then
           let n := { pos with y := pos.y - 1 }
           if !(isVisited c n) && canVertical (cvAt c n) then [n] else []
         else []) ++
        (if canDown c pos then
           let n := { pos with y := pos.y + 1 }
           if !(isVisited c n) && canVertical (cvAt c n) then [n] else []
         else [])
      else []
    let dOut : List Point :=
      if canDiagonal c pos then
        (if canUp c pos then
          (if canLeft c pos then
             let n := { pos with x := pos.x - 1, y := pos.y - 1 }
             if !(isVisited c n) && canDiagonalFrom (cvAt c n) (cvAt c pos) then [n] else []
           else []) ++
          (if canRight c pos then
             let n := { pos with x := pos.x + 1, y := pos.y - 1 }
             if !(isVisited c n) && canDiagonalFrom (cvAt c n) (cvAt c pos) then [n] else []
           else [])
         else []) ++
        (if canDown c pos then
          (if canLeft c pos then
             let n := { pos with x := pos.x - 1, y := pos.y + 1 }
             if !(isVisited c n) && canDiagonalFrom (cvAt c n) (cvAt c pos) then [n] else []
           else []) ++
          (if canRight c pos then
             let n := { pos with x := pos.x + 1, y := pos.y + 1 }
             if !(isVisited c n) && canDiagonalFrom (cvAt c n) (cvAt c pos) then [n] else []
           else [])
         else [])
      else []
    .ok (hOut ++ vOut ++ dOut)

/-! ## scanPath (canvas.go) -/

/-- scanPath: depth-first completion of a partial path.  The source recursion
is not structurally decreasing (a closed polygon re-enters scanPath at the
closing point), so the embedding carries fuel sized from the grid. -/
def scanPath : Nat → Cv → List Point → Res (Cv × List Obj)
  | 0, _, _ => .crash .outOfFuel
  | fuel + 1, c, points => do
    let cur := points.getLastD default
    let nxt ← nextPts c cur
    if nxt.isEmpty then
      if points.length == 1 then do
        let c1 ← unvisit c cur
        pure (c1, [])
      else do
        let o ← sealObj c { points := points, isText := false }
        pure (c, [o])
    else if cur.x == (points.headD default).x &&
            cur.y == (points.headD default).y + 1 then do
      let o ← sealObj c { points := points, isText := false }
      let (c1, rest) ← scanPath fuel c [cur]
      pure (c1, o :: rest)
    else
      nxt.foldlM (fun (acc : Cv × List Obj) n => do
        if isVisited acc.1 n then pure acc
        else do
          let c1 := visit acc.1 n
          let (c2, objs) ← scanPath fuel c1 (points ++ [n])
          pure (c2, acc.2 ++ objs)) (c, ([] : List Obj))

/-! ## HasPoint and TextContainer (object.go / canvas.go) -/

/-- HasPoint (object.go): even-odd crossings point-in-polygon test over the
corner list.  Go `/` on ints truncates (`Int.tdiv`); the guard makes the
divisor nonzero whenever the division is reached. -/
def hasPoint (o : Obj) (p : Point) : Bool :=
  let ncorners := o.corners.length
  ((List.range ncorners).foldl (fun (acc : Bool × Nat) i =>
    let ci := o.corners.getD i default
    let cj := o.corners.getD acc.2 default
    let hp :=
      if ((ci.y < p.y ∧ cj.y ≥ p.y) ∨ (cj.y < p.y ∧ ci.y ≥ p.y)) ∧
         (ci.x ≤ p.x ∨ cj.x ≤ p.x) then
        if ci.x + Int.tdiv (p.y - ci.y) (cj.y - ci.y) * (cj.x - ci.x) < p.x then
          !acc.1
        else acc.1
      else acc.1
    (hp, i)) (false, ncorners - 1)).1

/-- TextContainer (canvas.go): index of the most specific closed object that
contains both `s` and `e`, by the maxTL scan of the source. -/
def textContainer (_c : Cv) (objs : List Obj) (s e : Point) : Option Nat :=
  (objs.foldl (fun (acc : Nat × Point × Option Nat) o =>
    let i := acc.1
    let maxTL := acc.2.1
    if !o.isClosed then (i + 1, maxTL, acc.2.2)
    else
      let c0 := o.corners.headD default
      if hasPoint o s && hasPoint o e && decide (c0.x > maxTL.x) &&
         decide (c0.y > maxTL.y) then
        (i + 1, { x := c0.x, y := c0.y, hint := RenderHint.none }, some i)
      else (i + 1, maxTL, acc.2.2))
    (0, { x := -1, y := -1, hint := RenderHint.none }, none)).2.2

/-! ## objTagRE and strconv (standard library models)

`objTagRE = (\d+)\s*,\s*(\d+)$`: leftmost match anchored at the end of the
tag; for this pattern greedy runs need no backtracking. -/

def isDigitCh (c : Char) : Bool := 48 ≤ c.toNat && c.toNat ≤ 57

/-- regexp `\s` = `[\t\n\f\r ]`. -/
def isWsRe (c : Char) : Bool :=
  c.toNat == 9 || c.toNat == 10 || c.toNat == 12 || c.toNat == 13 || c.toNat == 32

/-- Try the pattern at one start position: digits, `\s*`, comma, `\s*`,
digits running to the end of the string. -/
def objTagMatchAt (s : List Char) : Option (List Char × List Char) :=
  let d1 := s.takeWhile isDigitCh
  if d1.isEmpty then none
  else
    let r1 := (s.dropWhile isDigitCh).dropWhile isWsRe
    match r1 with
    | c :: r2 =>
      if c == ',' then
        let r3 := r2.dropWhile isWsRe
        let d2 := r3.takeWhile isDigitCh
        if d2.isEmpty then none
        else if (r3.dropWhile isDigitCh).isEmpty then some (d1, d2) else none
      else none
    | [] => none

/-- FindStringSubmatch for objTagRE: earliest start position that matches. -/
def objTagFind : Nat → List Char → Option (List Char × List Char)
  | 0, _ => none
  | fuel + 1, s =>
    match objTagMatchAt s with
    | some m => some m
    | none =>
      match s with
      | [] => none
      | _ :: t => objTagFind fuel t

/-- strconv.ParseInt on an all-digit string (overflow of int64, which no
evaluated input approaches, is not modelled). -/
def digitsToInt (ds : List Char) : Int :=
  ds.foldl (fun a c => a * 10 + Int.ofNat (c.toNat - 48)) 0

/-! ## encoding/json model -/

/-- JSON whitespace accepted by encoding/json. -/
def jsonWs (c : Char) : Bool :=
  c == ' ' || c.toNat == 9 || c.toNat == 10 || c.toNat == 13

/-- JSON string body after the opening quote: decoded characters and the rest. -/
def jsonParseString : Nat → List Char → Option (List Char × List Char)
  | 0, _ => none
  | _ + 1, [] => none
  | fuel + 1, ch :: r =>
    if ch == '"' then some ([], r)
    else if ch == Char.ofNat 92 then
      match r with
      | [] => none
      | e :: r2 =>
        if e == 'u' then
          match r2 with
          | h1 :: h2 :: h3 :: h4 :: r3 =>
            let hv := fun (c : Char) =>
              if isDigitCh c then some (c.toNat - 48)
              else if 97 ≤ c.toNat && c.toNat ≤ 102 then some (c.toNat - 87)
              else if 65 ≤ c.toNat && c.toNat ≤ 70 then some (c.toNat - 55)
              else none
            match hv h1, hv h2, hv h3, hv h4 with
            | some a, some b, some cc, some d =>
              (jsonParseString fuel r3).map (fun pr =>
                (Char.ofNat (((a * 16 + b) * 16 + cc) * 16 + d) :: pr.1, pr.2))
            | _, _, _, _ => none
          | _ => none
        else
          let dec : Option Char :=
            if e == '"' then some '"'
            else if e == Char.ofNat 92 then some (Char.ofNat 92)
            else if e == '/' then some '/'
            else if e == 'b' then some (Char.ofNat 8)
            else if e == 'f' then some (Char.ofNat 12)
            else if e == 'n' then some (Char.ofNat 10)
            else if e == 'r' then some (Char.ofNat 13)
            else if e == 't' then some (Char.ofNat 9)
            else none
          match dec with
          | some d => (jsonParseString fuel r2).map (fun pr => (d :: pr.1, pr.2))
          | none => none
    else if ch.toNat < 0x20 then none
    else (jsonParseString fuel r).map (fun pr => (ch :: pr.1, pr.2))

/-- JSON number: `-? int frac? exp?`; the lexeme is kept verbatim. -/
def jsonParseNumber (s : List Char) : Option (Jv × List Char) :=
  let neg := match s with | c :: _ => c == '-' | [] => false
  let s1 := if neg then s.drop 1 else s
  match s1 with
  | [] => none
  | c :: _ =>
    if !(isDigitCh c) then none
    else
      let intPart := if c == '0' then ['0'] else s1.takeWhile isDigitCh
      let r1 := s1.drop intPart.length
      let fracPart :=
        match r1 with
        | d :: fr =>
          if d == '.' then
            let ds := fr.takeWhile isDigitCh
            if ds.isEmpty then none else some ('.' :: ds)
          else some []
        | [] => some []
      match fracPart with
      | none => none
      | some fp =>
        let r2 := r1.drop fp.length
        let expPart :=
          match r2 with
          | d :: er =>
            if d == 'e' || d == 'E' then
              let (sgn, er2) :=
                match er with
                | sc :: rest => if sc == '+' || sc == '-' then ([sc], rest) else ([], er)
                | [] => ([], [])
              let ds := er2.takeWhile isDigitCh
              if ds.isEmpty then none else some (d :: (sgn ++ ds))
            else some []
          | [] => some []
        match expPart with
        | none => none
        | some ep =>
          let lex := (if neg then ['-'] else []) ++ intPart ++ fp ++ ep
          some (.jnum lex, r2.drop ep.length)

/-- Parsing mode: a value, array elements, or object members. -/
inductive JMode where
  | value
  | elems (acc : List Jv)
  | members (acc : List (List Char × Jv))

/-- Recursive-descent JSON parser (model of encoding/json's grammar); all
recursive calls strictly consume fuel. -/
def jsonP : Nat → JMode → List Char → Option (Jv × List Char)
  | 0, _, _ => none
  | fuel + 1, .value, s =>
    let s1 := s.dropWhile jsonWs
    match s1 with
    | [] => none
    | c :: rest =>
      if c == 'n' then
        match rest with
        | 'u' :: 'l' :: 'l' :: r => some (.jnull, r)
        | _ => none
      else if c == 't' then
        match rest with
        | 'r' :: 'u' :: 'e' :: r => some (.jbool true, r)
        | _ => none
      else if c == 'f' then
        match rest with
        | 'a' :: 'l' :: 's' :: 'e' :: r => some (.jbool false, r)
        | _ => none
      else if c == '"' then
        (jsonParseString (rest.length + 1) rest).map (fun pr => (.jstr pr.1, pr.2))
      else if c == '-' || isDigitCh c then jsonParseNumber s1
      else if c == '[' then
        let r1 := rest.dropWhile jsonWs
        match r1 with
        | cc :: r2 => if cc == ']' then some (.jarr [], r2) else jsonP fuel (.elems []) rest
        | [] => none
      else if c == '{' then
        let r1 := rest.dropWhile jsonWs
        match r1 with
        | cc :: r2 => if cc == '}' then some (.jobj [], r2) else jsonP fuel (.members []) rest
        | [] => none
      else none
  | fuel + 1, .elems acc, s =>
    match jsonP fuel .value s with
    | none => none
    | some (v, r) =>
      let r1 := r.dropWhile jsonWs
      match r1 with
      | c :: r2 =>
        if c == ',' then jsonP fuel (.elems (acc ++ [v])) r2
        else if c == ']' then some (.jarr (acc ++ [v]), r2)
        else none
      | [] => none
  | fuel + 1, .members acc, s =>
    let s1 := s.dropWhile jsonWs
    match s1 with
    | c :: r =>
      if c == '"' then
        match jsonParseString (r.length + 1) r with
        | none => none
        | some (k, r2) =>
          let r3 := r2.dropWhile jsonWs
          match r3 with
          | cc :: r4 =>
            if cc == ':' then
              match jsonP fuel .value r4 with
              | none => none
              | some (v, r5) =>
                let r6 := r5.dropWhile jsonWs
                match r6 with
                | c2 :: r7 =>
                  if c2 == ',' then jsonP fuel (.members (acc ++ [(k, v)])) r7
                  else if c2 == '}' then some (.jobj (acc ++ [(k, v)]), r7)
                  else none
                | [] => none
            else none
          | [] => none
      else none
    | [] => none

/-- json.Unmarshal: a full JSON value with only whitespace around it. -/
def jsonUnmarshal (s : List Char) : Option Jv :=
  match jsonP (s.length + 2) .value s with
  | some (v, r) => if (r.dropWhile jsonWs).isEmpty then some v else none
  | none => none

/-! ## scanText (canvas.go) -/

/-- The loop state of scanText: current point, recorded end tag position,
the tag state machine counter (`tagged`, an int that can reach −1), the tag
and tag-definition accumulators, the whitespace streak, and the collected
points. -/
structure ScanTextSt where
  cur : Point
  endP : Point
  tagged : Int
  tag : List Char
  tagDef : List Char
  ws : Nat
  pts : List Point

/-- The top-of-iteration tag update of scanText's loop: `tagged` is
incremented when the current cell is a start tag `[` at the start column, or
an end tag `]` past it. -/
def scanTextTag (c : Cv) (start : Point) (st : ScanTextSt) : Int :=
  if st.cur.x == start.x && isObjectStartTag (cvAt c st.cur) then st.tagged + 1
  else if st.cur.x > start.x && isObjectEndTag (cvAt c st.cur) then st.tagged + 1
  else st.tagged

/-- The top-of-iteration `end` update of scanText's loop: recorded at each
end tag `]` past the start column. -/
def scanTextEnd (c : Cv) (start : Point) (st : ScanTextSt) : Point :=
  if !(st.cur.x == start.x && isObjectStartTag (cvAt c st.cur)) &&
     st.cur.x > start.x && isObjectEndTag (cvAt c st.cur) then st.cur
  else st.endP

/-- The `for c.canRight(cur)` loop of scanText, one field update at a time in
source order; the three `break`s leave the tag bookkeeping of the current
iteration in place and drop the rest.  The whitespace-streak break fires only
when the updated `tagged` is still 0 and the incremented streak exceeds 2
(in the source, `hitStreak` implies `ws1 = st.ws + 1`, so the break test
`hitStreak && ws1 > 2` is `hitStreak && st.ws + 1 > 2`).  The state entering
the next iteration when no break fires (cursor advanced, end/tag bookkeeping
applied, point collected, the whitespace streak incremented only while the
updated `tagged` is 0) is factored out as `scanTextNext`. -/
def scanTextNext (c : Cv) (start : Point) (st : ScanTextSt) : ScanTextSt :=
  { cur := { st.cur with x := st.cur.x + 1 }
    endP := scanTextEnd c start st
    tagged :=
      if scanTextTag c start st == 2 then
        if isTagDefinitionSeparator (cvAt c { st.cur with x := st.cur.x + 1 }) then
          scanTextTag c start st + 1
        else -1
      else scanTextTag c start st
    tag :=
      if scanTextTag c start st == 1 &&
         !(isObjectEndTag (cvAt c { st.cur with x := st.cur.x + 1 })) then
        st.tag ++ [cvAt c { st.cur with x := st.cur.x + 1 }]
      else st.tag
    tagDef :=
      if scanTextTag c start st == 3 then
        st.tagDef ++ [cvAt c { st.cur with x := st.cur.x + 1 }]
      else st.tagDef
    ws :=
      if scanTextTag c start st == 0 &&
         isSpace (cvAt c { st.cur with x := st.cur.x + 1 }) then st.ws + 1
      else 0
    pts := st.pts ++ [{ st.cur with x := st.cur.x + 1 }] }

def scanTextLoop (c : Cv) (start : Point) : Nat → ScanTextSt → ScanTextSt
  | 0, st => st
  | fuel + 1, st =>
    if !(canRight c st.cur) then st
    else if isVisited c { st.cur with x := st.cur.x + 1 } then
      { st with tagged := scanTextTag c start st, endP := scanTextEnd c start st }
    else if !(isTextCont (cvAt c { st.cur with x := st.cur.x + 1 })) then
      { st with tagged := scanTextTag c start st, endP := scanTextEnd c start st }
    else if (scanTextTag c start st == 0 &&
             isSpace (cvAt c { st.cur with x := st.cur.x + 1 })) &&
            decide (st.ws + 1 > 2) then
      { st with tagged := scanTextTag c start st, endP := scanTextEnd c start st }
    else
      scanTextLoop c start fuel (scanTextNext c start st)

/-- The `[X,Y]`-tag loop of scanText: walk the object list and set the tag of
the first object whose first corner is `(X, Y)`, then break.  `Corners()[0]`
on a cornerless object is an index panic. -/
def setObjTagLoop (t : String) (tX tY : Int) : List Obj → Res (List Obj)
  | [] => .ok []
  | o :: rest =>
    match o.corners with
    | [] => .crash .emptyCorners
    | cr :: _ =>
      if cr.x == tX && cr.y == tY then .ok ({ o with tag := t } :: rest)
      else (setObjTagLoop t tX tY rest).map (fun l => o :: l)

/-- The trailing-space trim of scanText. -/
def trimRightSpaces (c : Cv) (pts : List Point) : List Point :=
  ((pts.reverse).dropWhile (fun p => isSpace (cvAt c p))).reverse

/-- Insert-or-replace in the options map. -/
def optSet (opts : List (String × List (List Char × Jv))) (k : String)
    (v : List (List Char × Jv)) : List (String × List (List Char × Jv)) :=
  if opts.any (fun kv => kv.1 == k) then
    opts.map (fun kv => if kv.1 == k then (k, v) else kv)
  else opts ++ [(k, v)]

/-- Seal the trimmed text object carrying tag `t` (the tail of scanText). -/
def scanTextFinish (c : Cv) (objs : List Obj) (t : String) (pts : List Point) :
    Res (Cv × List Obj × Obj) := do
  let o ← sealObj c { points := trimRightSpaces c pts, isText := true, tag := t }
  pure (c, objs, o)

/-- scanText (canvas.go): extract one rightward text run starting at `start`,
handling `[tag]` labels (tagged = 2: tag the enclosing container and the text
object) and `[tag]: {json}` definitions (tagged = 3: tag a coordinate-addressed
object, unmarshal the JSON — a failure is `panic(err)` — and record the
options). -/
def scanText (c : Cv) (objs : List Obj) (start : Point) : Res (Cv × List Obj × Obj) :=
  let st := scanTextLoop c start (c.w + 2)
    { cur := start, endP := start, tagged := 0, tag := [], tagDef := [],
      ws := 0, pts := [start] }
  if st.tagged == 2 then
    let t := String.mk st.tag
    let objs1 :=
      match textContainer c objs start st.endP with
      | some i => modifyAt (fun o => { o with tag := t }) i objs
      | none => objs
    scanTextFinish c objs1 t st.pts
  else if st.tagged == 3 then
    let t := String.mk st.tag
    do
      let objs1 ←
        match objTagFind (st.tag.length + 1) st.tag with
        | some (d1, d2) => setObjTagLoop t (digitsToInt d1) (digitsToInt d2) objs
        | none => .ok objs
      match jsonUnmarshal st.tagDef with
      | none => .crash .jsonError
      | some (.jobj kvs) =>
        scanTextFinish { c with options := optSet c.options t kvs } objs1 t st.pts
      | some _ => .crash .typeAssert
  else scanTextFinish c objs "" st.pts

/-! ## Sorting (objects.Less, sort.Sort) -/

/-- objects.Less (object.go): non-text before text, then ascending Y, then
ascending X of the first point. -/
def objectsLess (l r : Obj) : Bool :=
  if l.isText != r.isText then r.isText
  else
    let lp := l.points.headD default
    let rp := r.points.headD default
    if lp.y != rp.y then decide (lp.y < rp.y) else decide (lp.x < rp.x)

def arrSwap (a : Array Obj) (i j : Nat) : Array Obj :=
  let x := a.getD i default
  let y := a.getD j default
  (a.setD i y).setD j x

/-- The inner loop of the standard library's insertionSort. -/
def insInner (a : Array Obj) : Nat → Array Obj
  | 0 => a
  | j + 1 =>
    if objectsLess (a.getD (j + 1) default) (a.getD j default) then
      insInner (arrSwap a (j + 1) j) j
    else a

def insertionSortArr (a : Array Obj) : Array Obj :=
  (List.range a.size).foldl (fun arr i =>
    match i with
    | 0 => arr
    | j + 1 => insInner arr (j + 1)) a

/-- The gap-6 ShellSort pass sort.Sort runs before insertionSort on short
ranges. -/
def shellPass (a : Array Obj) : Array Obj :=
  (List.range a.size).foldl (fun arr i =>
    if 6 ≤ i && objectsLess (arr.getD i default) (arr.getD (i - 6) default) then
      arrSwap arr i (i - 6)
    else arr) a

/-- sort.Sort(c.objects): for up to 12 elements Go's quickSort runs exactly
the gap-6 pass followed by insertionSort, which is what every parse evaluated
in this file hits (the large-n pivoting path of the standard library is not
modelled, and no theorem below evaluates a parse with more than 12 objects;
sort.Sort makes no stability promise — see the discussion at claim C6). -/
def goSortObjects (objs : List Obj) : List Obj :=
  if objs.length ≤ 1 then objs
  else (insertionSortArr (shellPass objs.toArray)).toList

/-! ## findObjects and NewCanvas (canvas.go) -/

def rowMajor (w h : Nat) : List Point :=
  ((List.range h).map (fun y => (List.range w).map (fun x =>
    ({ x := Int.ofNat x, y := Int.ofNat y, hint := RenderHint.none } : Point)))).flatten

/-- findObjects: the path pass, the text pass, then the sort. -/
def findObjects (c : Cv) : Res (Cv × List Obj) := do
  let fuel := (c.w * c.h + 2) * (c.w * c.h + 2)
  let p1 ← (rowMajor c.w c.h).foldlM (fun (acc : Cv × List Obj) p => do
      if isVisited acc.1 p then pure acc
      else if isPathStart (cvAt acc.1 p) then do
        let cv1 := visit acc.1 p
        let (cv2, newObjs) ← scanPath fuel cv1 [p]
        let cv3 := newObjs.foldl (fun cc o => o.points.foldl visit cc) cv2
        pure (cv3, acc.2 ++ newObjs)
      else pure acc) (c, ([] : List Obj))
  let p2 ← (rowMajor c.w c.h).foldlM (fun (acc : Cv × List Obj) p => do
      if isVisited acc.1 p then pure acc
      else if isTextStart (cvAt acc.1 p) then do
        let (cv1, objs1, obj) ← scanText acc.1 acc.2 p
        let cv2 := obj.points.foldl visit cv1
        pure (cv2, objs1 ++ [obj])
      else pure acc) p1
  pure (p2.1, goSortObjects p2.2)

/-- Validate, expand and measure the lines (the first loop of NewCanvas);
returns the expanded lines and the maximal rune count. -/
def processLines (tw : Int) : List (List UInt8) → Nat → Nat → Res (List (List UInt8) × Nat)
  | [], _, maxX => .ok ([], maxX)
  | l :: rest, i, maxX =>
    if !(utf8Valid l) then .perr (.invalidUTF8 i)
    else do
      let e ← expandTabs l tw
      let rc := utf8RuneCount e
      let (es, mx) ← processLines tw rest (i + 1) (if rc > maxX then rc else maxX)
      pure (e :: es, mx)

/-- Decode each expanded line and right-pad with spaces to the grid width. -/
def buildGrid (w : Nat) (lines : List (List UInt8)) : List Char :=
  lines.foldr (fun l acc =>
    let cs := decodeRunes l.length l
    (cs ++ List.replicate (w - cs.length) ' ') ++ acc) []

/-- The parse result surfaced to callers: Size(), Objects(), Options(). -/
structure Parsed where
  sizeX : Int
  sizeY : Int
  objects : List Obj
  options : List (String × List (List Char × Jv))
deriving Inhabited, Repr

/-- NewCanvas (canvas.go): split on newlines, validate UTF-8 per line, expand
tabs, build the uniform grid, find the objects, and return the canvas. -/
def NewCanvas (data : List UInt8) (tabWidth : Int) : Res Parsed := do
  let lines0 := splitNl data
  let sizeY := lines0.length
  let (lines, sizeX) ← processLines tabWidth lines0 0 0
  let grid := buildGrid sizeX lines
  let cv : Cv := { w := sizeX, h := sizeY, grid := grid,
                   visited := List.replicate (sizeX * sizeY) false, options := [] }
  let (cv2, objs) ← findObjects cv
  pure { sizeX := Int.ofNat sizeX, sizeY := Int.ofNat sizeY,
         objects := objs, options := cv2.options }

/-- Bytes of an ASCII string (all concrete inputs below are ASCII). -/
def asciiBytes (s : String) : List UInt8 := s.data.map (fun c => UInt8.ofNat c.toNat)

/-- First-corner match used by the `[X,Y]` tag loop (the `corner.X == targetX
&& corner.Y == targetY` test on `Corners()[0]`). -/
def matchesFirstCorner (o : Obj) (tX tY : Int) : Bool :=
  match o.corners with
  | [] => false
  | cr :: _ => cr.x == tX && cr.y == tY

/-! # Claims -/

/-- C1: parsing the three-line input `+-+` / `| |` / `+-+` returns exactly one
object; it is closed, is not text, and its corner list is exactly
[(0,0),(2,0),(2,2),(0,2)]. -/
theorem c1_smallest_box :
    (NewCanvas (asciiBytes ("+-+\n| |\n+-+")) 8).map
      (fun c => c.objects.map (fun o =>
        (o.corners.map (fun p => (p.x, p.y)), o.isClosed, o.isText))) =
    .ok [([(0, 0), (2, 0), (2, 2), (0, 2)], true, false)] := by decide

/-- C2 (divergence witness): the two bytes 0xC3 0xA9 are the valid UTF-8
encoding of "é" — a single line of valid UTF-8 with no tab — yet NewCanvas
returns the parse error "invalid rune at byte offset 2; rune offset 1":
expandTabs ranges over the *bytes* of the line while its cursor advances by
decoded-rune lengths, so any multi-byte scalar desynchronises the loop and the
trailing iteration decodes the empty slice to RuneError.  The claim (and the
package documentation) say such input parses successfully. -/
theorem c2_multibyte_rejected :
    utf8Valid [0xC3, 0xA9] = true ∧
    (NewCanvas [0xC3, 0xA9] 8).map (fun _ => ()) = .perr (.invalidRune 2 1) := by decide

/-- C3 (divergence witness): on `[a]: x` the tag-definition body ` x` fails
json.Unmarshal and scanText executes `panic(err)` — the parse aborts instead
of returning a ParseError from the entry point as the claim states. -/
theorem c3_bad_json_panics :
    (NewCanvas (asciiBytes ("[a]: x")) 8).map (fun _ => ()) = .crash .jsonError := by decide

/-- C4 counterexample: parse with tab_width 0 on an input consisting of one
tab character does not return normally — `tabWidth - (pos % tabWidth)` divides
by zero and the run aborts. -/
theorem c4_cex_tab_width_zero_aborts :
    (NewCanvas [0x09] 0).map (fun _ => ()) = .crash .divByZero := by decide

/-- C4 as amended: tab_width 0 does not disable tab expansion.  A line
without any tab byte is expanded identically under every tab width (the width
is never consulted), and a line whose first byte is a tab aborts with the
divide-by-zero crash under tab_width 0 — tabs never pass through as one
column. -/
theorem c4_amended_tab_width_zero (bs : List UInt8) (tw₁ tw₂ : Int)
    (hnotab : (9 : UInt8) ∉ bs) :
    expandTabs bs tw₁ = expandTabs bs tw₂ ∧
    ∀ rest : List UInt8, expandTabs (9 :: rest) 0 = .crash .divByZero := by
  constructor
  · have key : ∀ (cs : List UInt8) (orig : List UInt8) (pos index : Nat)
        (out : List UInt8), (9 : UInt8) ∉ cs →
        expandTabsLoop orig tw₁ cs pos index out = expandTabsLoop orig tw₂ cs pos index out := by
      intro cs
      induction cs with
      | nil => intro orig pos index out _; rfl
      | cons c cs ih =>
        intro orig pos index out hmem
        have hc : ¬ (c = 9) := fun h => hmem (h ▸ List.mem_cons_self c cs)
        have hc' : (c == 9) = false := by
          simp only [beq_eq_false_iff_ne, ne_eq]; exact hc
        have hrest : (9 : UInt8) ∉ cs := fun h => hmem (List.mem_cons_of_mem c h)
        simp only [expandTabsLoop, hc']
        split
        · next hcontra => exact absurd hcontra (by simp)
        · split
          · rfl
          · exact ih orig _ _ _ hrest
    exact key bs bs 0 0 [] hnotab
  · intro rest
    rfl

/-- C4 amended, witness: the tab-free line "A" expands the same under widths
0 and 8, and a leading tab under width 0 crashes. -/
theorem c4_amended_witness :
    expandTabs [0x41] 0 = expandTabs [0x41] 8 ∧
    expandTabs [9] 0 = .crash .divByZero := by
  refine ⟨(c4_amended_tab_width_zero [0x41] 0 8 (by decide)).1, ?_⟩
  exact (c4_amended_tab_width_zero [] 0 0 (by decide)).2 []

/-- C7 counterexample: on the diagram `+-` / `|` / `[0,0]: {}` the path pass
discovers two objects both of whose first corner is (0,0) (the horizontal arm
and the vertical arm leaving the `+`), and the tag definition `[0,0]` tags
only the first of them: after parse the second object with first corner (0,0)
carries the empty tag, refuting "that object's tag equals the tag string" for
every matching object. -/
theorem c7_cex_only_first_match_tagged :
    (NewCanvas (asciiBytes ("+-\n|\n[0,0]: \x7b\x7d")) 8).map (fun c =>
      (c.options.map (fun kv => kv.1),
       c.objects.map (fun o =>
         ((o.corners.headD default).x, (o.corners.headD default).y, o.tag)))) =
    .ok (["0,0"], [(0, 0, "0,0"), (0, 0, ""), (0, 2, "0,0")]) := by decide

/-- C10 counterexample: parsing the empty byte sequence succeeds but Size()
is (0, 1), not (0, 0) — bytes.Split of the empty slice yields one empty line,
so the canvas has height 1. -/
theorem c10_cex_empty_input_size :
    (NewCanvas [] 8).map (fun c => (c.sizeX, c.sizeY)) = .ok (0, 1) ∧
    ((0 : Int), (1 : Int)) ≠ ((0 : Int), (0 : Int)) := by decide

/-- C10 as amended: for every tab width, parsing the empty byte sequence
succeeds and yields a Canvas of width 0 and height 1 (one empty line), with
an empty object list and an empty options map. -/
theorem c10_amended_empty_input (tw : Int) :
    NewCanvas [] tw =
    .ok { sizeX := 0, sizeY := 1, objects := [], options := [] } := rfl

/-- C7 as amended: when a `[X,Y]` tag definition is applied to the object
list, only the *first* object (in list order at definition-scan time) whose
first corner equals (X, Y) receives the tag — the loop breaks after one match
— and every other object, including later objects with the same first corner,
is left unchanged; when no object matches, the list is unchanged. -/
theorem c7_amended_first_match_only (t : String) (tX tY : Int)
    (objs res : List Obj)
    (hc : ∀ o ∈ objs, o.corners ≠ [])
    (h : setObjTagLoop t tX tY objs = .ok res) :
    ((∀ o ∈ objs, matchesFirstCorner o tX tY = false) ∧ res = objs) ∨
    (∃ pre om post, objs = pre ++ om :: post ∧
      (∀ o ∈ pre, matchesFirstCorner o tX tY = false) ∧
      matchesFirstCorner om tX tY = true ∧
      res = pre ++ ({ om with tag := t } :: post)) := by
  induction objs generalizing res with
  | nil =>
    left
    refine ⟨(by intro o ho; cases ho), ?_⟩
    unfold setObjTagLoop at h
    cases h
    rfl
  | cons o os ih =>
    obtain ⟨cr, crs, hcr⟩ : ∃ cr crs, o.corners = cr :: crs := by
      cases hco : o.corners with
      | nil => exact absurd hco (hc o (by simp))
      | cons a b => exact ⟨a, b, rfl⟩
    simp only [setObjTagLoop, hcr] at h
    by_cases hm : (cr.x == tX && cr.y == tY) = true
    · rw [if_pos hm] at h
      cases h
      right
      refine ⟨[], o, os, by simp, (by intro o2 ho2; cases ho2), ?_, by simp [hcr]⟩
      unfold matchesFirstCorner
      rw [hcr]
      exact hm
    · rw [if_neg hm] at h
      have hmf : matchesFirstCorner o tX tY = false := by
        unfold matchesFirstCorner
        rw [hcr]
        exact Bool.eq_false_iff.mpr hm
      cases hrec : setObjTagLoop t tX tY os with
      | ok res' =>
        rw [hrec] at h
        simp only [Res.map] at h
        cases h
        rcases ih res' (fun o' h' => hc o' (List.mem_cons_of_mem o h')) hrec with
          ⟨hall, hre⟩ | ⟨pre, om, post, heq, hpre, hmm, hres⟩
        · left
          refine ⟨?_, by rw [hre]⟩
          intro o' ho'
          rcases List.mem_cons.mp ho' with h1 | h2
          · rw [h1]; exact hmf
          · exact hall o' h2
        · right
          refine ⟨o :: pre, om, post, by rw [heq, List.cons_append], ?_, hmm,
            by rw [hres, List.cons_append]⟩
          intro o' ho'
          rcases List.mem_cons.mp ho' with h1 | h2
          · rw [h1]; exact hmf
          · exact hpre o' h2
      | perr e =>
        rw [hrec] at h
        exact Res.noConfusion h
      | crash cc =>
        rw [hrec] at h
        exact Res.noConfusion h

/-- C7 amended witness: two objects both with first corner (0,0); the loop
tags the first and leaves the second unchanged. -/
theorem c7_amended_first_match_only_wit :
    ((∀ o ∈ [({ points := [], isText := false, corners := [⟨0, 0, .none⟩] } : Obj),
              ({ points := [], isText := false, corners := [⟨0, 0, .none⟩] } : Obj)],
        matchesFirstCorner o 0 0 = false) ∧
      ([({ points := [], isText := false, corners := [⟨0, 0, .none⟩], tag := "0,0" } : Obj),
        ({ points := [], isText := false, corners := [⟨0, 0, .none⟩] } : Obj)] :
          List Obj) =
      [({ points := [], isText := false, corners := [⟨0, 0, .none⟩] } : Obj),
       ({ points := [], isText := false, corners := [⟨0, 0, .none⟩] } : Obj)]) ∨
    (∃ pre om post,
      ([({ points := [], isText := false, corners := [⟨0, 0, .none⟩] } : Obj),
        ({ points := [], isText := false, corners := [⟨0, 0, .none⟩] } : Obj)] :
          List Obj) = pre ++ om :: post ∧
      (∀ o ∈ pre, matchesFirstCorner o 0 0 = false) ∧
      matchesFirstCorner om 0 0 = true ∧
      ([({ points := [], isText := false, corners := [⟨0, 0, .none⟩], tag := "0,0" } : Obj),
        ({ points := [], isText := false, corners := [⟨0, 0, .none⟩] } : Obj)] :
          List Obj) = pre ++ ({ om with tag := "0,0" } :: post)) :=
  c7_amended_first_match_only "0,0" 0 0 _ _ (by decide) rfl

theorem modifyAt_length {α : Type} (f : α → α) (i : Nat) (l : List α) :
    (modifyAt f i l).length = l.length := by
  induction l generalizing i with
  | nil => cases i <;> rfl
  | cons x r ih => cases i with
    | zero => rfl
    | succ j => simpa [modifyAt] using ih j

theorem modifyAt_getD_or {α : Type} (f : α → α) (i j : Nat) (l : List α) (d : α) :
    (modifyAt f i l).getD j d = f (l.getD j d) ∨
    (modifyAt f i l).getD j d = l.getD j d := by
  induction l generalizing i j with
  | nil => right; cases i <;> rfl
  | cons x r ih =>
    cases i with
    | zero =>
      cases j with
      | zero => left; rfl
      | succ jj => right; rfl
    | succ ii =>
      cases j with
      | zero => right; rfl
      | succ jj => exact ih ii jj

theorem setHintAt_length (pts : List Point) (i : Nat) (h : RenderHint) :
    (setHintAt pts i h).length = pts.length := modifyAt_length _ i pts

theorem sealMarkers_length (c : Cv) (pts : List Point) :
    (sealMarkers c pts).length = pts.length := by
  unfold sealMarkers sealEndMarker sealStartMarker
  split <;> split <;> simp [setHintAt_length]

theorem setHintAt_getD_hint (pts : List Point) (i j : Nat) (hh : RenderHint) (d : Point) :
    ((setHintAt pts i hh).getD j d).hint = (pts.getD j d).hint ∨
    ((setHintAt pts i hh).getD j d).hint = hh := by
  unfold setHintAt
  rcases modifyAt_getD_or (fun p => { p with hint := hh }) i j pts d with h1 | h1
  · right; rw [h1]
  · left; rw [h1]

theorem sealMarkers_getD_hint (c : Cv) (pts : List Point) (j : Nat) (d : Point) :
    ((sealMarkers c pts).getD j d).hint = (pts.getD j d).hint ∨
    ((sealMarkers c pts).getD j d).hint = .startMarker ∨
    ((sealMarkers c pts).getD j d).hint = .endMarker := by
  unfold sealMarkers sealEndMarker
  split
  · rcases setHintAt_getD_hint (sealStartMarker c pts)
      ((sealStartMarker c pts).length - 1) j .endMarker d with h1 | h1
    · rw [h1]
      unfold sealStartMarker
      split
      · rcases setHintAt_getD_hint pts 0 j .startMarker d with h2 | h2
        · left; rw [h2]
        · right; left; rw [h2]
      · left; rfl
    · right; right; rw [h1]
  · unfold sealStartMarker
    split
    · rcases setHintAt_getD_hint pts 0 j .startMarker d with h2 | h2
      · left; rw [h2]
      · right; left; rw [h2]
    · left; rfl

theorem sealPointUpd_x (c : Cv) (cors : List Point) (q : Point) :
    (sealPointUpd c cors q).x = q.x := by
  unfold sealPointUpd
  split
  · rfl
  · split
    · rfl
    · split <;> rfl

theorem sealPointUpd_y (c : Cv) (cors : List Point) (q : Point) :
    (sealPointUpd c cors q).y = q.y := by
  unfold sealPointUpd
  split
  · rfl
  · split
    · rfl
    · split <;> rfl

theorem cornerMem_coords (l : List Point) (p q : Point)
    (hx : p.x = q.x) (hy : p.y = q.y) : cornerMem l p = cornerMem l q := by
  unfold cornerMem
  simp only [hx, hy]

theorem cvAt_coords (c : Cv) (p q : Point) (hx : p.x = q.x) (hy : p.y = q.y) :
    cvAt c p = cvAt c q := by
  unfold cvAt gridIdx
  rw [hx, hy]

theorem getD_map_lt {α β : Type} (f : α → β) (l : List α) (i : Nat)
    (h : i < l.length) (d : β) (d0 : α) :
    (l.map f).getD i d = f (l.getD i d0) := by
  induction l generalizing i with
  | nil => exact absurd h (Nat.not_lt_zero i)
  | cons x r ih =>
    cases i with
    | zero => rfl
    | succ j => exact ih j (Nat.lt_of_succ_lt_succ h)

theorem sealPointUpd_hint_iff (c : Cv) (cors : List Point) (q : Point)
    (hq : q.hint ≠ RenderHint.roundedCorner) :
    ((sealPointUpd c cors q).hint = RenderHint.roundedCorner ↔
      (cornerMem cors q = true ∧ isRoundedCorner (cvAt c q) = true)) := by
  unfold sealPointUpd
  by_cases hcm : (cornerMem cors q && isRoundedCorner (cvAt c q)) = true
  · rw [if_pos hcm]
    have hb := Bool.and_eq_true_iff.mp hcm
    simp [hb.1, hb.2]
  · rw [if_neg hcm]
    constructor
    · intro hh
      exfalso
      split at hh
      · simp at hh
      · split at hh
        · simp at hh
        · exact hq hh
    · intro hh
      exact absurd (Bool.and_eq_true_iff.mpr hh) hcm

/-- C9: during finalization (object.go's seal) of every non-text object whose
incoming points carry no hints, a point of the sealed object carries the
RoundedCorner hint iff the point appears (by coordinates) in the object's
corner list and its grid character is a rounded-corner character (`.` or the
apostrophe); a rounded-corner character traversed straight through (not a
corner) receives no RoundedCorner hint. -/
theorem c9_main (c : Cv) (o o2 : Obj)
    (htext : o.isText = false)
    (hhints : ∀ p ∈ o.points, p.hint = RenderHint.none)
    (h : sealObj c o = .ok o2) (i : Nat) (hi : i < o2.points.length) :
    ((o2.points.getD i default).hint = RenderHint.roundedCorner ↔
      (cornerMem o2.corners (o2.points.getD i default) = true ∧
       isRoundedCorner (cvAt c (o2.points.getD i default)) = true)) := by
  unfold sealObj at h
  cases hptc : pointsToCorners (sealMarkers c o.points) with
  | none => rw [hptc] at h; exact Res.noConfusion h
  | some pr =>
    obtain ⟨cors, closed⟩ := pr
    rw [hptc] at h
    simp only [htext, Bool.false_eq_true, if_false] at h
    cases h
    simp only at hi ⊢
    have hlen1 : (sealMarkers c o.points).length = o.points.length :=
      sealMarkers_length c o.points
    have hi1 : i < (sealMarkers c o.points).length := by
      simpa [List.length_map] using hi
    have hmap := getD_map_lt (sealPointUpd c cors) (sealMarkers c o.points) i hi1
      (default : Point) (default : Point)
    rw [hmap]
    have hqhint : ((sealMarkers c o.points).getD i default).hint ≠
        RenderHint.roundedCorner := by
      rcases sealMarkers_getD_hint c o.points i default with h1 | h1 | h1
      · rw [h1]
        have hmem : o.points.getD i default ∈ o.points := by
          have hlt : i < o.points.length := by rw [← hlen1]; exact hi1
          rw [List.getD_eq_getElem o.points default hlt]
          exact List.getElem_mem hlt
        rw [hhints _ hmem]
        simp
      · rw [h1]; simp
      · rw [h1]; simp
    rw [cornerMem_coords cors _ _
      (sealPointUpd_x c cors ((sealMarkers c o.points).getD i default))
      (sealPointUpd_y c cors ((sealMarkers c o.points).getD i default))]
    rw [cvAt_coords c _ _
      (sealPointUpd_x c cors ((sealMarkers c o.points).getD i default))
      (sealPointUpd_y c cors ((sealMarkers c o.points).getD i default))]
    exact sealPointUpd_hint_iff c cors _ hqhint

/-- C9 witness: a 2×2 grid `-.` / ` |` with the open path (0,0)→(1,0)→(1,1);
the rounded-corner character `.` sits at the corner (1,0) and the sealed point
there carries the RoundedCorner hint, as the theorem instance states. -/
theorem c9_main_wit :
    ((([⟨0, 0, .none⟩, ⟨1, 0, .roundedCorner⟩, ⟨1, 1, .none⟩] : List Point).getD 1
        default).hint = RenderHint.roundedCorner ↔
      (cornerMem [⟨0, 0, .none⟩, ⟨1, 0, .none⟩, ⟨1, 1, .none⟩]
        (([⟨0, 0, .none⟩, ⟨1, 0, .roundedCorner⟩, ⟨1, 1, .none⟩] : List Point).getD 1
          default) = true ∧
       isRoundedCorner (cvAt
        { w := 2, h := 2, grid := ['-', '.', ' ', '|'],
          visited := [false, false, false, false], options := [] }
        (([⟨0, 0, .none⟩, ⟨1, 0, .roundedCorner⟩, ⟨1, 1, .none⟩] : List Point).getD 1
          default)) = true)) := by
  have happ := c9_main
    { w := 2, h := 2, grid := ['-', '.', ' ', '|'],
      visited := [false, false, false, false], options := [] }
    { points := [⟨0, 0, .none⟩, ⟨1, 0, .none⟩, ⟨1, 1, .none⟩], isText := false }
    { points := [⟨0, 0, .none⟩, ⟨1, 0, .roundedCorner⟩, ⟨1, 1, .none⟩],
      isText := false, text := ['-', '.', '|'],
      corners := [⟨0, 0, .none⟩, ⟨1, 0, .none⟩, ⟨1, 1, .none⟩],
      isClosed := false, isDashed := false, tag := "" }
    rfl (by decide) rfl 1 (by decide)
  exact happ

/-- The superseded seal still duplicated in canvas.go (carrying the TODO
"Only do this for corners") diverges from object.go's seal exactly on rounded
characters at non-corner positions: on the straight path `-.-` it hints the
middle point RoundedCorner while object.go's seal leaves it unhinted. -/
theorem sealCanvasTodo_hints_noncorner :
    (sealCanvasTodo
        { w := 3, h := 1, grid := ['-', '.', '-'],
          visited := [false, false, false], options := [] }
        { points := [⟨0, 0, .none⟩, ⟨1, 0, .none⟩, ⟨2, 0, .none⟩], isText := false }).map
      (fun o => o.points.map (fun p => p.hint)) =
      .ok [.none, .roundedCorner, .none] ∧
    (sealObj
        { w := 3, h := 1, grid := ['-', '.', '-'],
          visited := [false, false, false], options := [] }
        { points := [⟨0, 0, .none⟩, ⟨1, 0, .none⟩, ⟨2, 0, .none⟩], isText := false }).map
      (fun o => o.points.map (fun p => p.hint)) =
      .ok [.none, .none, .none] := by decide

theorem isHorizontalPair_symm (p q : Point) :
    isHorizontalPair p q = isHorizontalPair q p := by
  unfold isHorizontalPair
  rw [decide_eq_decide]
  omega

theorem isVerticalPair_symm (p q : Point) :
    isVerticalPair p q = isVerticalPair q p := by
  unfold isVerticalPair
  rw [decide_eq_decide]
  omega

theorem isDiagonalNE_excludes (lp p0 : Point) (h : isDiagonalNE lp p0 = true) :
    isHorizontalPair lp p0 = false ∧ isVerticalPair lp p0 = false ∧
    isDiagonalSE lp p0 = false ∧ isDiagonalSW lp p0 = false ∧
    isDiagonalNW lp p0 = false := by
  unfold isDiagonalNE at h
  unfold isHorizontalPair isVerticalPair isDiagonalSE isDiagonalSW isDiagonalNW
  simp only [decide_eq_true_eq] at h
  simp only [decide_eq_false_iff_not]
  refine ⟨by omega, by omega, by omega, by omega, by omega⟩

theorem dirOfPair_H_inv (p q : Point) (h : dirOfPair p q = some dirH) :
    isHorizontalPair p q = true := by
  unfold dirOfPair at h
  split_ifs at h <;> simp_all [dirH, dirV, dirSE, dirSW, dirNW, dirNE]

theorem dirOfPair_V_inv (p q : Point) (h : dirOfPair p q = some dirV) :
    isVerticalPair p q = true := by
  unfold dirOfPair at h
  split_ifs at h <;> simp_all [dirH, dirV, dirSE, dirSW, dirNW, dirNE]

theorem dirOfPair_NE_inv (p q : Point) (h : dirOfPair p q = some dirNE) :
    isDiagonalNE p q = true := by
  unfold dirOfPair at h
  split_ifs at h <;> simp_all [dirH, dirV, dirSE, dirSW, dirNW, dirNE]

/-- The closing chain of pointsToCorners decides exactly: the direction from
the last point back to the first is defined, equals the final direction, and
is one of H, V, NE. -/
theorem closePred_iff (p0 lp : Point) (dF : Nat) :
    closePred p0 lp dF = true ↔
    ∃ d, dirOfPair lp p0 = some d ∧ dF = d ∧
      (d = dirH ∨ d = dirV ∨ d = dirNE) := by
  by_cases hH : isHorizontalPair p0 lp = true
  · have hH2 : isHorizontalPair lp p0 = true := by
      rw [isHorizontalPair_symm]; exact hH
    unfold closePred dirOfPair
    rw [if_pos hH, if_pos hH2]
    constructor
    · intro h
      exact ⟨dirH, rfl, eq_of_beq h, Or.inl rfl⟩
    · rintro ⟨d, hd, hdf, _⟩
      injection hd with hd'
      rw [hdf, ← hd']
      exact beq_self_eq_true _
  · by_cases hV : isVerticalPair p0 lp = true
    · have hH2 : ¬(isHorizontalPair lp p0 = true) := by
        rw [isHorizontalPair_symm]; exact hH
      have hV2 : isVerticalPair lp p0 = true := by
        rw [isVerticalPair_symm]; exact hV
      unfold closePred dirOfPair
      rw [if_neg hH, if_pos hV, if_neg hH2, if_pos hV2]
      constructor
      · intro h
        exact ⟨dirV, rfl, eq_of_beq h, Or.inr (Or.inl rfl)⟩
      · rintro ⟨d, hd, hdf, _⟩
        injection hd with hd'
        rw [hdf, ← hd']
        exact beq_self_eq_true _
    · by_cases hNE : isDiagonalNE lp p0 = true
      · obtain ⟨e1, e2, e3, e4, e5⟩ := isDiagonalNE_excludes lp p0 hNE
        unfold closePred dirOfPair
        rw [if_neg hH, if_neg hV, if_pos hNE]
        rw [if_neg (by simp [e1]), if_neg (by simp [e2]), if_neg (by simp [e3]),
            if_neg (by simp [e4]), if_neg (by simp [e5]), if_pos hNE]
        constructor
        · intro h
          exact ⟨dirNE, rfl, eq_of_beq h, Or.inr (Or.inr rfl)⟩
        · rintro ⟨d, hd, hdf, _⟩
          injection hd with hd'
          rw [hdf, ← hd']
          exact beq_self_eq_true _
      · unfold closePred
        rw [if_neg hH, if_neg hV, if_neg hNE]
        simp only [Bool.false_eq_true, false_iff]
        rintro ⟨d, hd, _, hmem⟩
        rcases hmem with h1 | h1 | h1
        · rw [h1] at hd
          have := dirOfPair_H_inv lp p0 hd
          rw [isHorizontalPair_symm] at this
          exact hH this
        · rw [h1] at hd
          have := dirOfPair_V_inv lp p0 hd
          rw [isVerticalPair_symm] at this
          exact hV this
        · rw [h1] at hd
          exact hNE (dirOfPair_NE_inv lp p0 hd)

theorem ptcLoop_spec (rest : List Point) :
    ∀ (prev : Point) (d : Nat) (out out2 : List Point) (dF : Nat) (lp : Point),
    ptcLoop prev rest d out = some (out2, dF, lp) →
    ((prev :: rest).getLast? = some lp) ∧
    (rest = [] → dF = d ∧ out2 = out) ∧
    (rest ≠ [] → ∃ a, [a, lp] <:+ (prev :: rest) ∧ dirOfPair a lp = some dF) := by
  induction rest with
  | nil =>
    intro prev d out out2 dF lp h
    unfold ptcLoop at h
    injection h with h1
    obtain ⟨h2, h3, h4⟩ : out = out2 ∧ d = dF ∧ prev = lp := by
      refine ⟨congrArg Prod.fst h1, ?_, ?_⟩
      · have := congrArg Prod.snd h1; exact congrArg Prod.fst this
      · have := congrArg Prod.snd h1; exact congrArg Prod.snd this
    subst h2; subst h3; subst h4
    exact ⟨rfl, fun _ => ⟨rfl, rfl⟩, fun hc => absurd rfl hc⟩
  | cons q rest' ih =>
    intro prev d out out2 dF lp h
    unfold ptcLoop at h
    cases hdir : dirOfPair prev q with
    | none => rw [hdir] at h; exact Option.noConfusion h
    | some nd =>
      rw [hdir] at h
      obtain ⟨hlast, hnil, hne⟩ := ih q nd _ out2 dF lp h
      cases rest' with
      | nil =>
        obtain ⟨hdF, _⟩ := hnil rfl
        have hlp : lp = q := by
          simp at hlast
          exact hlast.symm
        subst hdF; subst hlp
        refine ⟨by simp, fun hc => absurd hc (by simp), fun _ => ?_⟩
        exact ⟨prev, List.suffix_refl _, hdir⟩
      | cons q2 rest2 =>
        obtain ⟨a, hsuff, hda⟩ := hne (by simp)
        refine ⟨?_, fun hc => absurd hc (by simp), fun _ => ?_⟩
        · rw [List.getLast?_cons_cons]
          exact hlast
        · exact ⟨a, hsuff.trans (List.suffix_cons prev _), hda⟩

theorem suffix_len_eq {α : Type} (l1 l2 L : List α)
    (h1 : l1 <:+ L) (h2 : l2 <:+ L) (hl : l1.length = l2.length) : l1 = l2 := by
  obtain ⟨t1, ht1⟩ := h1
  obtain ⟨t2, ht2⟩ := h2
  rw [← ht2] at ht1
  have hlt : t1.length = t2.length := by
    have := congrArg List.length ht1
    simp at this
    omega
  exact List.append_inj_right ht1 hlt

/-- C5: for every point list of length at least 3 on which pointsToCorners
returns (it panics on discontiguous lists), the path is marked closed iff the
direction from the last point back to the first is defined, equals the final
walking direction (the direction of the list's last consecutive pair), and is
one of horizontal, vertical, or northeast-diagonal; otherwise the last point
is appended as a trailing corner and the path is marked open. -/
theorem c5_closed_iff (pts out : List Point) (closed : Bool) (fst lst : Point)
    (hlen : 3 ≤ pts.length)
    (hhead : pts.head? = some fst)
    (hlast : pts.getLast? = some lst)
    (h : pointsToCorners pts = some (out, closed)) :
    (closed = true ↔
      ∃ d a, [a, lst] <:+ pts ∧ dirOfPair a lst = some d ∧
        dirOfPair lst fst = some d ∧ (d = dirH ∨ d = dirV ∨ d = dirNE)) ∧
    (closed = false → ∃ mid, out = mid ++ [lst]) := by
  rcases pts with _ | ⟨p0, _ | ⟨p1, _ | ⟨p2, rest⟩⟩⟩
  · simp at hlen
  · simp at hlen
  · simp at hlen
  · have hfst : fst = p0 := by
      simp at hhead
      exact hhead.symm
    rw [hfst]
    simp only [pointsToCorners] at h
    cases hd0 : dirOfPair p0 p1 with
    | none =>
      simp only [hd0] at h
      exact Option.noConfusion h
    | some d0 =>
      simp only [hd0] at h
      cases hloop : ptcLoop p1 (p2 :: rest) d0 [p0] with
      | none =>
        simp only [hloop] at h
        exact Option.noConfusion h
      | some tri =>
        obtain ⟨lout, dF, lp⟩ := tri
        simp only [hloop] at h
        obtain ⟨hlastq, _, hne⟩ := ptcLoop_spec (p2 :: rest) p1 d0 [p0] lout dF lp hloop
        obtain ⟨a, hsuff, hda⟩ := hne (by simp)
        have hlp : lp = lst := by
          rw [List.getLast?_cons_cons] at hlast
          rw [hlastq] at hlast
          exact Option.some.inj hlast
        rw [hlp] at hda hsuff h
        have hsuff' : [a, lst] <:+ (p0 :: p1 :: p2 :: rest) :=
          hsuff.trans (List.suffix_cons p0 _)
        by_cases hcp : closePred p0 lst dF = true
        · rw [if_pos hcp] at h
          injection h with h1
          obtain ⟨hout, hcl⟩ : lout = out ∧ true = closed :=
            ⟨congrArg Prod.fst h1, congrArg Prod.snd h1⟩
          subst hout; subst hcl
          obtain ⟨d, hd, hdf, hmem⟩ := (closePred_iff p0 lst dF).mp hcp
          subst hdf
          refine ⟨⟨fun _ => ⟨dF, a, hsuff', hda, hd, hmem⟩, fun _ => rfl⟩, ?_⟩
          intro hc
          exact absurd hc (by simp)
        · rw [if_neg hcp] at h
          injection h with h1
          obtain ⟨hout, hcl⟩ : lout ++ [lst] = out ∧ false = closed :=
            ⟨congrArg Prod.fst h1, congrArg Prod.snd h1⟩
          subst hout; subst hcl
          refine ⟨⟨fun hc => absurd hc (by simp), ?_⟩, fun _ => ⟨lout, rfl⟩⟩
          rintro ⟨d, a2, hsuff2, hda2, hdlast, hmem⟩
          exfalso
          have heq2 : [a2, lst] = [a, lst] :=
            suffix_len_eq _ _ _ hsuff2 hsuff' rfl
          have ha2 : a2 = a := by
            injection heq2 with x y
          rw [ha2] at hda2
          have hdd : some dF = some d := by rw [← hda, ← hda2]
          have hdd' : dF = d := Option.some.inj hdd
          exact hcp ((closePred_iff p0 lst dF).mpr ⟨d, hdlast, hdd', hmem⟩)

/-- C5 witness: the smallest box's point cycle; pointsToCorners closes it with
final direction V, which is also the direction from (0,1) back to (0,0). -/
theorem c5_closed_iff_wit :
    ((true = true ↔
      ∃ d a, [a, (⟨0, 1, .none⟩ : Point)] <:+
          [(⟨0, 0, .none⟩ : Point), ⟨1, 0, .none⟩, ⟨2, 0, .none⟩, ⟨2, 1, .none⟩,
           ⟨2, 2, .none⟩, ⟨1, 2, .none⟩, ⟨0, 2, .none⟩, ⟨0, 1, .none⟩] ∧
        dirOfPair a ⟨0, 1, .none⟩ = some d ∧
        dirOfPair ⟨0, 1, .none⟩ ⟨0, 0, .none⟩ = some d ∧
        (d = dirH ∨ d = dirV ∨ d = dirNE)) ∧
     (true = false →
      ∃ mid, [(⟨0, 0, .none⟩ : Point), ⟨2, 0, .none⟩, ⟨2, 2, .none⟩, ⟨0, 2, .none⟩] =
        mid ++ [(⟨0, 1, .none⟩ : Point)])) :=
  c5_closed_iff
    [⟨0, 0, .none⟩, ⟨1, 0, .none⟩, ⟨2, 0, .none⟩, ⟨2, 1, .none⟩,
     ⟨2, 2, .none⟩, ⟨1, 2, .none⟩, ⟨0, 2, .none⟩, ⟨0, 1, .none⟩]
    [⟨0, 0, .none⟩, ⟨2, 0, .none⟩, ⟨2, 2, .none⟩, ⟨0, 2, .none⟩] true
    ⟨0, 0, .none⟩ ⟨0, 1, .none⟩ (by decide) rfl rfl rfl
